import Mathlib

/-!
Verification development for the takopi-linear transport backend.

This file gives a shallow embedding, in Lean 4, of the core logic of the
repository:

* the webhook payload normalizer (`_unwrap_payload`, `_normalize_event_type`
  and the field extractors of `src/takopi_linear/backend.py`),
* the event handler `_handle_event` (run-lock discipline, stop semantics,
  prompt resolution, plan updates), embedded as a pure function that returns
  the trace of effectful actions it performs,
* the stop-watcher `watch_stop` of `_run_engine_for_session`,
* the sliding-window rate limiter `_RateLimiter.acquire` of
  `src/takopi_linear/client.py`,
* the claim semantics of the gateway poller SQL of
  `src/takopi_linear/poller.py`.

Modelling conventions:

* Python JSON-ish values are modelled by `JVal`; Python dicts are
  insertion-ordered association lists without duplicate keys, and
  `dict.update` / `dict.pop` are modelled literally on that representation.
  Non-dict non-string Python values are modelled by `JVal.other` carrying
  their truthiness and their `str()` rendering, both of which are opaque to
  the code under study.  The `str()` of a dict is modelled by an opaque
  marker; the code only compares these strings against fixed ASCII
  patterns which no dict rendering matches.
* `json.loads` (Python standard library) is modelled as an arbitrary
  decoder parameter `jload : String → Option JVal` (`none` = decode error
  or non-JSON); all theorems hold for every decoder.
* `str.lower` / `str.strip` are modelled by ASCII lowering / trimming;
  every string the code compares against is ASCII.
* Time is modelled by `ℚ`.  `await anyio.sleep(d)` advances the clock by
  exactly `d` and no time passes between other statements; this is the
  standard idealization for a single sequential caller.
* The network client and the engine runtime are external collaborators and
  are modelled as oracles inside `HEnv`.
-/

/-- A Python JSON-ish value: `None`, a string, a dict (insertion-ordered
association list), or an opaque other value carrying its truthiness and its
`str()` rendering. -/
inductive JVal where
  | null : JVal
  | str : String → JVal
  | obj : List (String × JVal) → JVal
  | other : Bool → String → JVal

/-- A Python dict: insertion-ordered association list (no duplicate keys). -/
abbrev Dict := List (String × JVal)

/-- First binding of a key, like a Python dict lookup (keys are unique). -/
def dlookup : Dict → String → Option JVal
  | [], _ => none
  | (k, v) :: rest, key => if k = key then some v else dlookup rest key

/-- Python `d.get(k)`: the bound value, or `None` when the key is absent. -/
def dget (d : Dict) (k : String) : JVal :=
  match dlookup d k with
  | some v => v
  | none => JVal.null

/-- Python `d.pop(k, None)`: remove a key (and its binding) from a dict. -/
def derase (d : Dict) (key : String) : Dict :=
  d.filter (fun p => p.1 ≠ key)

/-- Set one key, replacing an existing binding in place (Python dict item
assignment). -/
def dsetk : Dict → String → JVal → Dict
  | [], k, v => [(k, v)]
  | (k', v') :: rest, k, v =>
      if k' = k then (k, v) :: rest else (k', v') :: dsetk rest k v

/-- Python `d.update(inner)`: set every binding of `inner`, in order. -/
def dupdate (d inner : Dict) : Dict :=
  inner.foldl (fun acc p => dsetk acc p.1 p.2) d

/-- Python truthiness of a `JVal`. -/
def truthy : JVal → Bool
  | JVal.null => false
  | JVal.str s => !s.isEmpty
  | JVal.obj f => !f.isEmpty
  | JVal.other b _ => b

/-- Python `a or b` on JSON-ish values. -/
def pyOr (a b : JVal) : JVal := if truthy a then a else b

/-- Python `str.lower()` (character-wise lowering; every pattern the code
compares against is ASCII). -/
def pyLower (s : String) : String := String.mk (s.data.map Char.toLower)

/-- A whitespace character, as stripped by Python `str.strip()`. -/
def isPySpace (c : Char) : Bool :=
  c = ' ' || c = '\t' || c = '\n' || c = '\r' || c = '\x0b' || c = '\x0c'

/-- Python `str.strip()`: drop whitespace from both ends. -/
def pyStrip (s : String) : String :=
  String.mk (((s.data.dropWhile isPySpace).reverse.dropWhile isPySpace).reverse)

/-- Python `str.startswith(pfx)`. -/
def pyStartsWith (s pfx : String) : Bool := pfx.data.isPrefixOf s.data

/-- Python `str.removeprefix(pfx)` under the assumption that the prefix is
present (the code checks `startswith` first). -/
def pyDrop (s : String) (n : Nat) : String := String.mk (s.data.drop n)

/-- Python `str(v)`.  The rendering of a dict is an opaque marker: the code
only compares these strings with fixed ASCII event-type patterns, which no
Python dict rendering (it starts with a brace) matches either. -/
def pyStr : JVal → String
  | JVal.null => "None"
  | JVal.str s => s
  | JVal.obj _ => "<dict>"
  | JVal.other _ rendering => rendering

/-- Python `_coerce_text` (backend.py): a stripped non-empty string, else
`None`. -/
def coerceText : JVal → Option String
  | JVal.str s => let t := pyStrip s; if t = "" then none else some t
  | _ => none

/-- Python `isinstance(v, str) and v`: the string itself when non-empty. -/
def strTruthy : JVal → Option String
  | JVal.str s => if s = "" then none else some s
  | _ => none

/-! ### `_unwrap_payload` (backend.py lines 105-134) -/

/-- Is an optional value a dict? (`isinstance(out.get(k), dict)`). -/
def isObjOpt : Option JVal → Bool
  | some (JVal.obj _) => true
  | _ => false

/-- One iteration of the `_unwrap_payload` loop body: merge the `payload`
wrapper if it is a dict, else the `data` wrapper if it is a dict, else
report that neither wrapper key is present (the loop breaks). -/
def wrapperStep (out : Dict) : Option Dict :=
  match dlookup out "payload" with
  | some (JVal.obj inner) => some (dupdate (derase out "payload") inner)
  | _ =>
      match dlookup out "data" with
      | some (JVal.obj inner) => some (dupdate (derase out "data") inner)
      | _ => none

/-- The `for _ in range(n)` merge loop of `_unwrap_payload`. -/
def unwrapLoop : Nat → Dict → Dict
  | 0, out => out
  | n + 1, out =>
      match wrapperStep out with
      | some out' => unwrapLoop n out'
      | none => out

/-- `_unwrap_payload`: merge nested `payload`/`data` wrappers into the top
level, bounded to 6 iterations. -/
def unwrapPayload (p : Dict) : Dict := unwrapLoop 6 p

/-- Number of merge iterations the loop actually performs under fuel `n`. -/
def unwrapIters : Nat → Dict → Nat
  | 0, _ => 0
  | n + 1, out =>
      match wrapperStep out with
      | some out' => unwrapIters n out' + 1
      | none => 0

/-- Neither wrapper key is bound to a dict: the loop stops here. -/
def noWrapperDict (d : Dict) : Bool :=
  !isObjOpt (dlookup d "payload") && !isObjOpt (dlookup d "data")

/-! ### `_normalize_event_type` (backend.py lines 137-150) -/

/-- `_normalize_event_type` on an event-type string and an optional action
string (`None` models both a missing and a non-string `action`). -/
def normalizeEventType (eventType : String) (action : Option String) : String :=
  let raw := eventType
  let rawLower := pyLower raw
  let actionLower := action.map pyLower
  if raw = "AgentSessionEvent" ∨ rawLower = "agentsessionevent" then
    match actionLower with
    | some a => if a = "" then "" else "agent_session." ++ a
    | none => ""
  else if pyStartsWith rawLower "agentsessionevent." then
    "agent_session." ++ pyDrop rawLower "agentsessionevent.".length
  else rawLower

/-- `_normalize_event_type` on raw JSON-ish inputs: `str(event_type or "")`
and `action.lower() if isinstance(action, str) else None`. -/
def normalizeEventTypeJ (eventType action : JVal) : String :=
  normalizeEventType (if truthy eventType then pyStr eventType else "")
    (match action with
     | JVal.str s => some s
     | _ => none)

/-! ### Field extractors (backend.py lines 153-331)

Each extractor is a pure function trying an ordered list of payload shapes,
translated clause by clause from the source. -/

/-- `_extract_session_id` (lines 153-165). -/
def extractSessionId (payload : Dict) : Option String :=
  let step1 :=
    match pyOr (dget payload "agentSession") (dget payload "agent_session") with
    | JVal.obj f => strTruthy (dget f "id")
    | _ => none
  match step1 with
  | some sid => some sid
  | none =>
      match strTruthy (pyOr (dget payload "agentSessionId")
          (dget payload "agent_session_id")) with
      | some sid => some sid
      | none =>
          match strTruthy (dget payload "id") with
          | some sid => if (dlookup payload "issue").isSome then some sid else none
          | none => none

/-- `_extract_issue_title` (lines 168-184). -/
def extractIssueTitle (payload : Dict) : Option String :=
  let step1 :=
    match pyOr (dget payload "agentSession") (dget payload "agent_session") with
    | JVal.obj f =>
        match dget f "issue" with
        | JVal.obj i => coerceText (dget i "title")
        | _ => none
    | _ => none
  match step1 with
  | some t => some t
  | none =>
      let step2 :=
        match dget payload "issue" with
        | JVal.obj i => coerceText (dget i "title")
        | _ => none
      match step2 with
      | some t => some t
      | none =>
          coerceText (pyOr (dget payload "issueTitle") (dget payload "issue_title"))

/-- The regex search `<title>([^<]+)</title>` (case-insensitive) of
`_extract_issue_title_from_prompt_context`: at each position try to match
the literal `<title>`, then a maximal non-empty run of non-`<` characters,
then the literal `</title>`; the leftmost match wins.  (The character class
cannot backtrack across `<`, so the greedy match is exact.) -/
def lcChars (l : List Char) : List Char := l.map Char.toLower

def searchTitleChars : List Char → Option String
  | [] => none
  | c :: rest =>
      let l := c :: rest
      if lcChars (l.take 7) = "<title>".data then
        let after := l.drop 7
        let grp := after.takeWhile (fun ch => ch ≠ '<')
        let tail0 := after.drop grp.length
        if grp ≠ [] ∧ lcChars (tail0.take 8) = "</title>".data then
          some (String.mk grp)
        else searchTitleChars rest
      else searchTitleChars rest

/-- `_extract_issue_title_from_prompt_context` (lines 190-199). -/
def extractIssueTitleFromPromptContext (payload : Dict) : Option String :=
  match pyOr (dget payload "promptContext") (dget payload "prompt_context") with
  | JVal.str s =>
      if pyStrip s = "" then none
      else
        match searchTitleChars s.data with
        | some t => let t' := pyStrip t; if t' = "" then none else some t'
        | none => none
  | _ => none

/-- `_extract_issue_project_id` (lines 202-215). -/
def extractIssueProjectId (payload : Dict) : Option String :=
  match pyOr (dget payload "agentSession") (dget payload "agent_session") with
  | JVal.obj f =>
      match dget f "issue" with
      | JVal.obj i =>
          let step1 :=
            match dget i "project" with
            | JVal.obj p => coerceText (dget p "id")
            | _ => none
          match step1 with
          | some pid => some pid
          | none => coerceText (pyOr (dget i "projectId") (dget i "project_id"))
      | _ => none
  | _ => none

/-- `_extract_issue_id` (lines 218-234). -/
def extractIssueId (payload : Dict) : Option String :=
  let step1 :=
    match pyOr (dget payload "agentSession") (dget payload "agent_session") with
    | JVal.obj f =>
        match dget f "issue" with
        | JVal.obj i =>
            coerceText (pyOr (dget i "id")
              (pyOr (dget i "issueId") (dget i "issue_id")))
        | _ => none
    | _ => none
  match step1 with
  | some iid => some iid
  | none =>
      let step2 :=
        match dget payload "issue" with
        | JVal.obj i => coerceText (dget i "id")
        | _ => none
      match step2 with
      | some iid => some iid
      | none => coerceText (pyOr (dget payload "issueId") (dget payload "issue_id"))

/-- The nested-key loop of `_extract_text_from_activity_content`
(lines 252-257): first key whose dict value yields a body/text. -/
def firstNested (content : Dict) : List String → Option String
  | [] => none
  | k :: ks =>
      match dget content k with
      | JVal.obj nf =>
          match (coerceText (dget nf "body")).orElse
              (fun _ => coerceText (dget nf "text")) with
          | some b => some b
          | none => firstNested content ks
      | _ => firstNested content ks

/-- `_extract_text_from_activity_content` (lines 245-276). -/
def extractTextFromActivityContent (content : Dict) : Option String :=
  match (coerceText (dget content "body")).orElse
      (fun _ => coerceText (dget content "text")) with
  | some b => some b
  | none =>
      match firstNested content
          ["prompt", "message", "thought", "elicitation", "response", "error"] with
      | some b => some b
      | none =>
          let action := dget content "action"
          let parameter := dget content "parameter"
          match action with
          | JVal.obj af =>
              let nestedAction := (coerceText (dget af "action")).orElse
                (fun _ => coerceText (dget af "type"))
              let nestedParameter := (coerceText (dget af "parameter")).orElse
                (fun _ => (coerceText (dget af "body")).orElse
                  (fun _ => coerceText (dget af "text")))
              if nestedAction = some "message" then nestedParameter else none
          | _ =>
              let actionText := coerceText action
              let parameterText := coerceText parameter
              if actionText = some "message" then parameterText else none

/-- `_extract_activity_body` (lines 279-301).  `jload` models the standard
library `json.loads` (`none` = decode error); the result is used only when
it is a dict, as in the source. -/
def extractActivityBody (jload : String → Option JVal) : JVal → Option String
  | JVal.str s => coerceText (JVal.str s)
  | JVal.obj f =>
      (match coerceText (dget f "body") with
       | some b => some b
       | none =>
           let content :=
             match dget f "content" with
             | JVal.str s =>
                 (match jload s with
                  | some (JVal.obj g) => some g
                  | _ => none)
             | JVal.obj g => some g
             | _ => none
           match content with
           | some g => extractTextFromActivityContent g
           | none => none)
  | _ => none

/-- `_extract_prompt_body` (lines 304-319). -/
def extractPromptBody (jload : String → Option JVal) (payload : Dict) :
    Option String :=
  let agentActivity := pyOr (dget payload "agentActivity")
    (dget payload "agent_activity")
  match extractActivityBody jload agentActivity with
  | some b => some b
  | none =>
      let pc := pyOr (dget payload "promptContext") (dget payload "prompt_context")
      match coerceText pc with
      | some b => some b
      | none =>
          match pc with
          | JVal.obj f =>
              (coerceText (dget f "body")).orElse
                (fun _ => coerceText (dget f "text"))
          | _ => none

/-- `_extract_agent_activity_id` (lines 322-331). -/
def extractAgentActivityId (payload : Dict) : Option String :=
  let step1 :=
    match pyOr (dget payload "agentActivity") (dget payload "agent_activity") with
    | JVal.obj f =>
        coerceText (pyOr (dget f "id")
          (pyOr (dget f "agentActivityId") (dget f "agent_activity_id")))
    | _ => none
  match step1 with
  | some aid => some aid
  | none =>
      coerceText (pyOr (dget payload "agentActivityId")
        (dget payload "agent_activity_id"))

/-- `_maybe_fetch_prompt_from_linear` (lines 334-344).  `fetch` models
`LinearClient.get_agent_activity` (`none` = `LinearApiError`). -/
def maybeFetchPromptFromLinear (jload : String → Option JVal)
    (fetch : String → Option JVal) (payload : Dict) :
    List String × Option String :=
  match extractAgentActivityId payload with
  | none => ([], none)
  | some aid =>
      ([aid],
       match fetch aid with
       | none => none
       | some activity => extractActivityBody jload activity)

/-! ### `_RateLimiter.acquire` (client.py lines 29-58)

`acquire` is embedded as a pure state transition on the recorded-timestamp
deque.  The caller supplies the clock reading `now`; `await anyio.sleep(d)`
advances the clock by exactly `d` (idealized sequential execution), so the
re-read of the clock after the sleep returns `now + sleepFor`.  The deque is
held under the limiter mutex for the whole call, so a single transition per
call is faithful. -/

structure RL where
  maxRequests : Nat
  window : ℚ

/-- The purge loop `while self._events and self._events[0] <= cutoff:
popleft()`. -/
def purge (cutoff : ℚ) : List ℚ → List ℚ
  | [] => []
  | t :: ts => if t ≤ cutoff then purge cutoff ts else t :: ts

/-- `acquire()`: returns the new recorded-timestamp list and the clock time
at which the call returns (`now` itself when no sleep happens). -/
def acquire (rl : RL) (events : List ℚ) (now : ℚ) : List ℚ × ℚ :=
  if rl.maxRequests = 0 then (events, now)
  else
    let evs := purge (now - rl.window) events
    if evs.length < rl.maxRequests then (evs ++ [now], now)
    else
      match evs with
      | [] => (evs ++ [now], now)
      | oldest :: _ =>
          let sleepFor := oldest + rl.window - now
          let now2 := if 0 < sleepFor then now + sleepFor else now
          (purge (now2 - rl.window) evs ++ [now2], now2)

/-! ### Gateway poller claim semantics (poller.py lines 23-34 and 86-112)

One `poll()` call runs the single claim statement in one transaction: select
up to `batch` `pending` rows for the source ordered by `created_at`,
skipping rows locked by a concurrent claimant (`FOR UPDATE SKIP LOCKED`),
flip them to `processing`, and return them.  `locked` is the set of row ids
currently row-locked by another in-flight claim transaction; a claim that
runs with no concurrent transaction passes `[]`. -/

inductive RowStatus where
  | pending
  | processing
  | done
  | failed
deriving DecidableEq, Repr

structure Row where
  id : Nat
  source : String
  status : RowStatus
  createdAt : Nat
deriving DecidableEq, Repr

/-- Insertion sort by `created_at` (`ORDER BY created_at`; ties keep table
order, which the SQL leaves unspecified). -/
def insertRow (r : Row) : List Row → List Row
  | [] => [r]
  | x :: xs =>
      if r.createdAt ≤ x.createdAt then r :: x :: xs else x :: insertRow r xs

def sortRows : List Row → List Row
  | [] => []
  | x :: xs => insertRow x (sortRows xs)

/-- The inner `SELECT id ... FOR UPDATE SKIP LOCKED` of `_CLAIM_SQL`:
pending rows for the source, minus rows locked by a concurrent claimant,
ordered by creation time, limited to `batch`. -/
def claimSelect (src : String) (batch : Nat) (locked : List Nat)
    (table : List Row) : List Row :=
  (sortRows (table.filter (fun r =>
    r.source = src ∧ r.status = RowStatus.pending ∧ r.id ∉ locked))).take batch

/-- The `UPDATE events SET status = 'processing' WHERE id IN (...)` part. -/
def claimApply (table : List Row) (ids : List Nat) : List Row :=
  table.map (fun r =>
    if r.id ∈ ids then { r with status := RowStatus.processing } else r)

/-- One whole claim transaction: the selected rows and the updated table. -/
def claimStep (src : String) (batch : Nat) (locked : List Nat)
    (table : List Row) : List Row × List Row :=
  let sel := claimSelect src batch locked table
  (sel, claimApply table (sel.map (fun r => r.id)))

/-! ### The stop-watcher `watch_stop` (backend.py lines 460-465)

Each loop iteration atomically observes `run_done`, `stop_requested` and the
`running_tasks` snapshot (`_request_cancel` reads the dict values once);
`obs` is the stream of those per-iteration observations.  The watcher's
output is the sequence of its own effects: `sleep d` for the fixed-cadence
pause and `cancel ts` for a `_request_cancel` call over snapshot `ts`
(task handles are identified by `Nat`). -/

structure Obs where
  runDone : Bool
  stopRequested : Bool
  tasks : List Nat

inductive WEv where
  | sleep : ℚ → WEv
  | cancel : List Nat → WEv
deriving DecidableEq

/-- `watch_stop`: while the run is not done, check the stop flag; when set,
call `_request_cancel` and return if it cancelled anything; otherwise sleep
50 ms and poll again. -/
def watchStop : List Obs → List WEv
  | [] => []
  | o :: rest =>
      if o.runDone then []
      else if o.stopRequested then
        if o.tasks ≠ [] then [WEv.cancel o.tasks]
        else WEv.cancel [] :: WEv.sleep (1/20) :: watchStop rest
      else WEv.sleep (1/20) :: watchStop rest

/-- The non-empty `_request_cancel` batches the watcher issued. -/
def cancelBatches (evs : List WEv) : List (List Nat) :=
  evs.filterMap (fun e =>
    match e with
    | WEv.cancel (t :: ts) => some (t :: ts)
    | _ => none)

/-- How often the watcher issued a cancellation to handle `t`. -/
def cancelIssueCount (evs : List WEv) (t : Nat) : Nat :=
  (evs.map (fun e =>
    match e with
    | WEv.cancel ts => ts.count t
    | _ => 0)).sum

/-! ### `_handle_event` (backend.py lines 566-726)

The handler is embedded as a pure function from the event, the session
state and an oracle environment to the trace of effectful actions it
performs, the updated session state and the terminal outcome (the caller
`handle_and_mark` marks the event done on normal return and failed when the
handler raises).

Actions inside the `async with state.run_lock` block belong to the separate
alphabet `BAct`: the block's source contains no lock operation, which this
type separation makes structural.  `async with` itself is embedded by
construction: the body's result (normal value or pending exception) is
wrapped between `acquire`/`resetStop` and `release`, the exception being
re-raised after the release — exactly the semantics of a scoped acquisition
with guaranteed release.

The concurrently writable `stop_requested` flag is read twice inside the
block (before the run and before the plan finalization); the values those
reads observe are oracle fields, since a concurrent stop event may have set
the flag at any time.  `_run_engine_for_session` is one `runEngine` action:
its internals touch neither the run lock nor the stop flag, and its
contained error paths return normally.  Oracles returning `none` model
`LinearApiError`; `runRaises = some m` models the engine run raising
(including task cancellation unwinding). -/

inductive Outcome where
  | done
  | failed
deriving DecidableEq, Repr

/-- Actions the `async with` body can perform (no lock operations). -/
inductive BAct where
  | setPlanStart
  | setPlanFinal
  | getIssue : String → BAct
  | fetchActivity : String → BAct
  | send : String → String → Bool → BAct
  | runEngine : String → BAct
  | cancelTasks : Nat → BAct
deriving DecidableEq, Repr

/-- All actions of one handler invocation. -/
inductive HAct where
  | acquire
  | resetStop
  | release
  | raiseErr : String → HAct
  | act : BAct → HAct
deriving DecidableEq, Repr

/-- The `_SessionState` fields the handler reads or writes (backend.py
lines 347-353).  `lockHeld` is what `run_lock.locked()` reports;
`runningTasks` maps a task key to its `cancel_requested` flag. -/
structure SessState where
  stopRequested : Bool
  lockHeld : Bool
  context : Option String
  runningTasks : List (Nat × Bool)
deriving DecidableEq, Repr

/-- Oracle environment: the event row fields plus the behaviour of every
external collaborator the handler awaits. -/
structure HEnv where
  eventTypeField : String
  payload : Dict
  jload : String → Option JVal
  getIssueResp : String → Option Dict
  fetchActivityResp : String → Option JVal
  projectMap : List (String × String)
  stopSendRaises : Bool
  ackSendRaises : Bool
  stopObservedBeforeRun : Bool
  stopObservedAfterRun : Bool
  runRaises : Option String
  -- Whether the initial / final `set_agent_plan` call raises.  Both calls
  -- sit inside `except (LinearApiError, Exception)` handlers that catch
  -- every exception and only log (backend.py lines 632-635 and 715-726),
  -- so the continuation is identical either way: the translated handler
  -- consumes neither flag, which is exactly the swallow.
  planStartRaises : Bool
  planFinalRaises : Bool

def stopEventNames : List String :=
  ["agent_session.canceled", "agent_session.cancelled", "agent_session.stopped"]

def isHandled (n : String) : Bool :=
  n = "agent_session.created" ∨ n = "agent_session.prompted" ∨ n ∈ stopEventNames

/-- Lines 580-583: the event type (row column, else payload fields) fed to
`_normalize_event_type` together with the payload `action`. -/
def classifyEvent (env : HEnv) : String :=
  let payload := unwrapPayload env.payload
  normalizeEventTypeJ
    (pyOr (JVal.str env.eventTypeField)
      (pyOr (dget payload "event_type") (dget payload "type")))
    (dget payload "action")

def slookup : List (String × String) → String → Option String
  | [], _ => none
  | (k, v) :: rest, key => if k = key then some v else slookup rest key

def ackText : String := "Acknowledged. Starting…"

def stopText : String := "Stop requested. Cancelling…"

/-- The user-visible missing-prompt error (line 670; the second sentence of
the literal is elided here). -/
def errPromptText : String := "error:\nMissing prompt text in webhook payload."

/-- Lines 637-664: issue/project/title resolution and the local prompt.
Returns the client actions performed, the resolved project id and the
locally resolved prompt. -/
def promptResolutionActs (env : HEnv) (normalized : String) (payload : Dict) :
    List BAct × Option String × Option String :=
  let projectId0 := extractIssueProjectId payload
  let issueTitle0 := (extractIssueTitle payload).orElse
    (fun _ => extractIssueTitleFromPromptContext payload)
  if normalized = "agent_session.created" then
    let fetchIssue :=
      match extractIssueId payload with
      | some iid =>
          if projectId0.isNone ∨ issueTitle0.isNone then
            ([BAct.getIssue iid], env.getIssueResp iid)
          else ([], none)
      | none => ([], none)
    let issueFromApi := fetchIssue.2
    let projectId :=
      match projectId0, issueFromApi with
      | none, some d =>
          (match dget d "project" with
           | JVal.obj pf => coerceText (dget pf "id")
           | _ => none)
      | _, _ => projectId0
    let issueTitle :=
      match issueTitle0, issueFromApi with
      | none, some d => coerceText (dget d "title")
      | _, _ => issueTitle0
    let prompt0 := issueTitle.orElse
      (fun _ => extractPromptBody env.jload payload)
    (fetchIssue.1, projectId, prompt0)
  else
    ([], projectId0, extractPromptBody env.jload payload)

/-- Lines 625-726 minus the lock itself: the body of the `async with`
block.  Returns its actions, the updated state and the pending exception
message, if any. -/
def lockBody (env : HEnv) (st : SessState) (sid : String) (normalized : String)
    (payload : Dict) : List BAct × SessState × Option String :=
  let isCreated := normalized = "agent_session.created"
  let planActs := if isCreated then [BAct.setPlanStart] else []
  let res := promptResolutionActs env normalized payload
  let projectId := res.2.1
  let st1 :=
    match st.context with
    | some _ => st
    | none =>
        match projectId with
        | some pid =>
            if pid = "" then st
            else
              match slookup env.projectMap pid with
              | some key => { st with context := some key }
              | none => st
        | none => st
  let fetchRes :=
    match res.2.2 with
    | some p => (([] : List String), some p)
    | none => maybeFetchPromptFromLinear env.jload env.fetchActivityResp payload
  let fetchActs := fetchRes.1.map BAct.fetchActivity
  match fetchRes.2 with
  | none =>
      (planActs ++ res.1 ++ fetchActs ++ [BAct.send sid errPromptText false],
        st1, some "Missing prompt text in event payload")
  | some p =>
      let acts0 := planActs ++ res.1 ++ fetchActs ++ [BAct.send sid ackText true]
      if env.ackSendRaises then (acts0, st1, some "transport send failed")
      else if env.stopObservedBeforeRun then (acts0, st1, none)
      else
        let acts1 := acts0 ++ [BAct.runEngine p]
        match env.runRaises with
        | some m => (acts1, st1, some m)
        | none =>
            if isCreated ∧ env.stopObservedAfterRun = false then
              (acts1 ++ [BAct.setPlanFinal], st1, none)
            else (acts1, st1, none)

/-- Lines 595-620: the stop branch. -/
def stopBranch (env : HEnv) (st : SessState) (sid : String) :
    List HAct × SessState × Outcome :=
  let cancelled := st.runningTasks.length
  let st' :=
    { st with
      stopRequested := true
      runningTasks := st.runningTasks.map (fun p => (p.1, true)) }
  if cancelled ≠ 0 ∨ st.lockHeld = true then
    ([HAct.act (BAct.cancelTasks cancelled),
      HAct.act (BAct.send sid stopText true)], st',
      if env.stopSendRaises then Outcome.failed else Outcome.done)
  else
    ([HAct.act (BAct.cancelTasks cancelled)], st', Outcome.done)

/-- The trace a raised body exception leaves after the scoped release. -/
def excTail : Option String → List HAct
  | none => []
  | some m => [HAct.raiseErr m]

/-- The `async with state.run_lock:` wrapper around the body's actions. -/
def finishTrace (body : List BAct) (exc : Option String) : List HAct :=
  HAct.acquire :: HAct.resetStop ::
    (body.map HAct.act ++ HAct.release :: excTail exc)

/-- `_handle_event`. -/
def handleEvent (env : HEnv) (st : SessState) :
    List HAct × SessState × Outcome :=
  let payload := unwrapPayload env.payload
  let normalized := classifyEvent env
  if isHandled normalized = false then ([], st, Outcome.done)
  else
    match extractSessionId payload with
    | none => ([], st, Outcome.failed)
    | some sid =>
        if normalized ∈ stopEventNames then stopBranch env st sid
        else
          let st0 := { st with stopRequested := false }
          let res := lockBody env st0 sid normalized payload
          (finishTrace res.1 res.2.2, res.2.1,
            match res.2.2 with
            | none => Outcome.done
            | some _ => Outcome.failed)

/-! ### Run-lock discipline: trace shape and mutual exclusion

The handler trace of a Created/Prompted event has the fixed shape
`acquire, resetStop, body, release, (raise)?`.  On top of that shape, a
small interleaving machine executes any number of handler tasks against one
session's `anyio.Lock`: `acquire` blocks while the lock is held and
`release` is performed by the holder (in the source the lock is only ever
released by the `async with` that acquired it).  All interleavings are
covered; the invariant shows at most one task is ever inside its critical
section. -/

def TraceShape (t : List HAct) : Prop :=
  ∃ (body : List BAct) (exc : Option String),
    t = HAct.acquire :: HAct.resetStop ::
      (body.map HAct.act ++ HAct.release :: excTail exc)

/-- A configuration of the interleaving machine: the lock owner and, per
task, the executed actions (most recent first) and the remaining trace. -/
structure Cfg where
  lock : Option Nat
  tasks : Nat → List HAct × List HAct

/-- `anyio.Lock` semantics: `acquire` proceeds only when the lock is free;
`release` is performed by the owner. -/
def lockGuard (lock : Option Nat) (i : Nat) (a : HAct) : Prop :=
  match a with
  | HAct.acquire => lock = none
  | HAct.release => lock = some i
  | _ => True

def lockNext (lock : Option Nat) (i : Nat) (a : HAct) : Option Nat :=
  match a with
  | HAct.acquire => some i
  | HAct.release => none
  | _ => lock

/-- One interleaving step: some task executes its next action. -/
inductive MStep : Cfg → Cfg → Prop where
  | exec (c : Cfg) (i : Nat) (a : HAct) (r : List HAct)
      (hr : (c.tasks i).2 = a :: r)
      (hg : lockGuard c.lock i a) :
      MStep c ⟨lockNext c.lock i a,
        Function.update c.tasks i (a :: (c.tasks i).1, r)⟩

/-- A task is inside its critical section: it has executed its `acquire`
but not yet its `release`. -/
def InCrit (tk : List HAct × List HAct) : Prop :=
  HAct.acquire ∈ tk.1 ∧ HAct.release ∉ tk.1

/-- The machine invariant: every task still runs a `TraceShape` trace, and
the lock owner is exactly the task in its critical section. -/
def MInv (c : Cfg) : Prop :=
  (∀ i, TraceShape ((c.tasks i).1.reverse ++ (c.tasks i).2)) ∧
  (match c.lock with
   | none => ∀ i, ¬ InCrit (c.tasks i)
   | some i => InCrit (c.tasks i) ∧ ∀ j, j ≠ i → ¬ InCrit (c.tasks j))

def isRunEvent (n : String) : Prop :=
  n = "agent_session.created" ∨ n = "agent_session.prompted"

def stInit : SessState := ⟨false, false, none, []⟩

/-- A concrete Created event for the session `sess-1`. -/
def envC1 : HEnv :=
  ⟨"AgentSessionEvent",
   [("action", JVal.str "created"),
    ("agentSession", JVal.obj
      [("id", JVal.str "sess-1"),
       ("issue", JVal.obj
         [("title", JVal.str "Fix bug"),
          ("project", JVal.obj [("id", JVal.str "proj-1")])])])],
   fun _ => none, fun _ => none, fun _ => none, [],
   false, false, false, false, none, false, false⟩

def trC1 : List HAct := (handleEvent envC1 stInit).1

def cfgC1 : Cfg := ⟨none, fun _ => ([], trC1)⟩

def cfgC1' : Cfg :=
  ⟨lockNext cfgC1.lock 0 HAct.acquire,
   Function.update cfgC1.tasks 0 (HAct.acquire :: (cfgC1.tasks 0).1, trC1.tail)⟩

/-- Sends are the session-visible messages of a handler trace. -/
def isSendAct : HAct → Bool
  | HAct.act (BAct.send _ _ _) => true
  | _ => false

/-- A concrete Stop event for the session `sess-2`. -/
def envC2 : HEnv :=
  ⟨"AgentSessionEvent",
   [("action", JVal.str "stopped"),
    ("agentSession", JVal.obj [("id", JVal.str "sess-2")])],
   fun _ => none, fun _ => none, fun _ => none, [],
   false, false, false, false, none, false, false⟩

def stC2 : SessState := ⟨false, false, none, [(1, false)]⟩

/-- A concrete Prompted event whose payload has no local prompt body but an
activity id, with a client that returns a body for that activity (the
scenario of `test_prompted_event_fetches_prompt_body_when_missing`). -/
def envC5 : HEnv :=
  ⟨"AgentSessionEvent",
   [("action", JVal.str "prompted"),
    ("agentSession", JVal.obj [("id", JVal.str "sess-1")]),
    ("agentActivity", JVal.obj [("id", JVal.str "act-1")])],
   fun _ => none, fun _ => none,
   fun a =>
     if a = "act-1" then
       some (JVal.obj [("id", JVal.str "act-1"),
         ("content", JVal.obj [("body", JVal.str "fetched prompt")])])
     else none,
   [], false, false, false, false, none, false, false⟩

/-- A Prompted event with a local prompt body: its run completes but no
plan update is posted at all. -/
def envC6a : HEnv :=
  ⟨"AgentSessionEvent",
   [("action", JVal.str "prompted"),
    ("agentSession", JVal.obj [("id", JVal.str "sess-1")]),
    ("agentActivity", JVal.obj [("body", JVal.str "hi")])],
   fun _ => none, fun _ => none, fun _ => none, [],
   false, false, false, false, none, false, false⟩

/-- A Created event whose engine run raises: the completion plan update is
skipped and the event fails. -/
def envC6b : HEnv :=
  ⟨"AgentSessionEvent",
   [("action", JVal.str "created"),
    ("agentSession", JVal.obj
      [("id", JVal.str "sess-1"),
       ("issue", JVal.obj
         [("title", JVal.str "Fix bug"),
          ("project", JVal.obj [("id", JVal.str "proj-1")])])])],
   fun _ => none, fun _ => none, fun _ => none, [],
   false, false, false, false, some "boom", false, false⟩

/-- A Created event whose run completes but with `stop_requested` observed
set afterwards: the completion plan update is skipped. -/
def envC6c : HEnv :=
  ⟨"AgentSessionEvent",
   [("action", JVal.str "created"),
    ("agentSession", JVal.obj
      [("id", JVal.str "sess-1"),
       ("issue", JVal.obj
         [("title", JVal.str "Fix bug"),
          ("project", JVal.obj [("id", JVal.str "proj-1")])])])],
   fun _ => none, fun _ => none, fun _ => none, [],
   false, false, false, true, none, false, false⟩

/-- The `envC6b` scenario with a successful run and a failing final plan
call. -/
def envC6w : HEnv :=
  ⟨"AgentSessionEvent",
   [("action", JVal.str "created"),
    ("agentSession", JVal.obj
      [("id", JVal.str "sess-1"),
       ("issue", JVal.obj
         [("title", JVal.str "Fix bug"),
          ("project", JVal.obj [("id", JVal.str "proj-1")])])])],
   fun _ => none, fun _ => none, fun _ => none, [],
   false, false, false, false, none, false, true⟩

/-! ### Theorems -/

theorem wrapperStep_eq_none_of_noWrapperDict {d : Dict}
    (h : noWrapperDict d = true) : wrapperStep d = none := by
  unfold noWrapperDict at h
  rw [Bool.and_eq_true] at h
  unfold wrapperStep
  split
  · rename_i heq
    rw [heq] at h
    simp [isObjOpt] at h
  · split
    · rename_i heq
      rw [heq] at h
      simp [isObjOpt] at h
    · rfl

theorem unwrapLoop_eq_self_of_noWrapperDict {d : Dict} (n : Nat)
    (h : noWrapperDict d = true) : unwrapLoop n d = d := by
  cases n with
  | zero => rfl
  | succ m =>
      unfold unwrapLoop
      rw [wrapperStep_eq_none_of_noWrapperDict h]

theorem unwrapIters_le (n : Nat) : ∀ d : Dict, unwrapIters n d ≤ n := by
  induction n with
  | zero => intro d; simp [unwrapIters]
  | succ m ih =>
      intro d
      unfold unwrapIters
      cases wrapperStep d with
      | none => exact Nat.zero_le _
      | some d' => exact Nat.succ_le_succ (ih d')

example : normalizeEventType "AgentSessionEvent" (some "created") =
    "agent_session.created" := by decide

example : normalizeEventType "agentsessionevent.prompted" none =
    "agent_session.prompted" := by decide

example : normalizeEventType "IssueEvent" (some "created") = "issueevent" := by
  decide

example : normalizeEventType "AgentSessionEvent" none = "" := by decide

example :
    extractSessionId [("agentSession", JVal.obj [("id", JVal.str "sess_1")])] =
      some "sess_1" := by rfl

example :
    extractPromptBody (fun _ => none)
      [("agentActivity", JVal.obj [("body", JVal.str "please continue")])] =
      some "please continue" := by rfl

example :
    extractPromptBody (fun _ => none)
      [("agentActivity", JVal.obj
        [("content", JVal.obj [("type", JVal.str "message"),
          ("message", JVal.obj [("body", JVal.str "hello nested")])])])] =
      some "hello nested" := by rfl

example :
    extractPromptBody (fun _ => none)
      [("agentActivity", JVal.obj
        [("content", JVal.obj [("type", JVal.str "action"),
          ("action", JVal.str "message"),
          ("parameter", JVal.str "hello param")])])] =
      some "hello param" := by rfl

example : acquire ⟨2, 1⟩ [] 0 = ([0], 0) := by norm_num [acquire, purge]

theorem mem_insertRow {r x : Row} {l : List Row} :
    x ∈ insertRow r l ↔ x = r ∨ x ∈ l := by
  induction l with
  | nil => simp [insertRow]
  | cons y ys ih =>
      unfold insertRow
      split
      · simp
      · simp [ih]
        tauto

theorem mem_sortRows {x : Row} {l : List Row} : x ∈ sortRows l ↔ x ∈ l := by
  induction l with
  | nil => simp [sortRows]
  | cons y ys ih => simp [sortRows, mem_insertRow, ih]

theorem mem_of_mem_claimSelect {src : String} {batch : Nat} {locked : List Nat}
    {table : List Row} {r : Row} (h : r ∈ claimSelect src batch locked table) :
    r ∈ table ∧ r.source = src ∧ r.status = RowStatus.pending ∧ r.id ∉ locked := by
  unfold claimSelect at h
  have h1 := List.take_subset _ _ h
  rw [mem_sortRows] at h1
  have h2 := List.mem_filter.mp h1
  refine ⟨h2.1, ?_⟩
  have := h2.2
  simpa using this

theorem finishTrace_traceShape (body : List BAct) (exc : Option String) :
    TraceShape (finishTrace body exc) := ⟨body, exc, rfl⟩

theorem count_map_act (l : List BAct) (a : HAct) (h : ∀ b : BAct, a ≠ HAct.act b) :
    (l.map HAct.act).count a = 0 := by
  rw [List.count_eq_zero]
  intro hmem
  obtain ⟨b, _, hb⟩ := List.mem_map.mp hmem
  exact h b hb.symm

theorem count_excTail (exc : Option String) (a : HAct)
    (h : ∀ m : String, a ≠ HAct.raiseErr m) : (excTail exc).count a = 0 := by
  cases exc with
  | none => rfl
  | some m =>
      rw [List.count_eq_zero]
      intro hmem
      rcases List.mem_singleton.mp hmem with rfl
      exact h m rfl

theorem traceShape_count_acquire {t : List HAct} (h : TraceShape t) :
    t.count HAct.acquire = 1 := by
  obtain ⟨body, exc, rfl⟩ := h
  simp [List.count_cons, List.count_append,
    count_map_act body HAct.acquire (by intro b h; cases h),
    count_excTail exc HAct.acquire (by intro m h; cases h)]

theorem traceShape_count_resetStop {t : List HAct} (h : TraceShape t) :
    t.count HAct.resetStop = 1 := by
  obtain ⟨body, exc, rfl⟩ := h
  simp [List.count_cons, List.count_append,
    count_map_act body HAct.resetStop (by intro b h; cases h),
    count_excTail exc HAct.resetStop (by intro m h; cases h)]

theorem acquire_not_mem_past {p r : List HAct}
    (h : TraceShape (p.reverse ++ HAct.acquire :: r)) : HAct.acquire ∉ p := by
  intro hmem
  have hc := traceShape_count_acquire h
  rw [List.count_append, List.count_reverse, List.count_cons] at hc
  have hp : 0 < p.count HAct.acquire := List.count_pos_iff.mpr hmem
  simp at hc
  omega

theorem release_not_mem_past {p r : List HAct}
    (hhead : ∃ tail, p.reverse ++ r = HAct.acquire :: tail)
    (hacq : HAct.acquire ∉ p) : HAct.release ∉ p := by
  intro hmem
  obtain ⟨tail, hpre⟩ := hhead
  rcases hp : p.reverse with _ | ⟨y, ys⟩
  · rw [List.reverse_eq_nil_iff] at hp
    subst hp
    simp at hmem
  · rw [hp, List.cons_append] at hpre
    have hy : y = HAct.acquire := (List.cons.injEq _ _ _ _ ▸ hpre).1
    have hmy : y ∈ p.reverse := by rw [hp]; exact List.mem_cons_self _ _
    rw [List.mem_reverse] at hmy
    rw [hy] at hmy
    exact hacq hmy

theorem MInv_step {c c' : Cfg} (hinv : MInv c) (hs : MStep c c') : MInv c' := by
  obtain ⟨hwb, hlock⟩ := hinv
  cases hs with
  | exec i a r hr hg =>
      have hwb' : ∀ j,
          TraceShape (((Function.update c.tasks i
            (a :: (c.tasks i).1, r) j).1).reverse ++
            (Function.update c.tasks i (a :: (c.tasks i).1, r) j).2) := by
        intro j
        by_cases hij : j = i
        · subst hij
          rw [Function.update_same]
          have := hwb j
          rw [hr] at this
          simpa [List.append_assoc] using this
        · rw [Function.update_noteq hij]
          exact hwb j
      refine ⟨hwb', ?_⟩
      have hwi := hwb i
      rw [hr] at hwi
      cases a with
      | acquire =>
          have hgn : c.lock = none := hg
          rw [hgn] at hlock
          have hnone : ∀ j, ¬ InCrit (c.tasks j) := hlock
          simp only [lockNext]
          constructor
          · rw [Function.update_same]
            have hacq := acquire_not_mem_past hwi
            have hrel : HAct.release ∉ (c.tasks i).1 := by
              obtain ⟨body, exc, heq⟩ := hwi
              exact release_not_mem_past ⟨_, heq⟩ hacq
            constructor
            · exact List.mem_cons_self _ _
            · intro hmem
              rcases List.mem_cons.mp hmem with h1 | h1
              · cases h1
              · exact hrel h1
          · intro j hji
            rw [Function.update_noteq hji]
            exact hnone j
      | release =>
          have hgs : c.lock = some i := hg
          simp only [lockNext]
          intro j
          by_cases hij : j = i
          · subst hij
            rw [Function.update_same]
            intro hc
            exact hc.2 (List.mem_cons_self _ _)
          · rw [Function.update_noteq hij]
            rw [hgs] at hlock
            exact hlock.2 j hij
      | resetStop =>
          simp only [lockNext]
          have hiff : InCrit (Function.update c.tasks i
              (HAct.resetStop :: (c.tasks i).1, r) i) ↔ InCrit (c.tasks i) := by
            rw [Function.update_same]
            unfold InCrit
            simp [List.mem_cons]
          cases hl : c.lock with
          | none =>
              rw [hl] at hlock
              intro j
              by_cases hij : j = i
              · subst hij; rw [hiff]; exact hlock j
              · rw [Function.update_noteq hij]; exact hlock j
          | some k =>
              rw [hl] at hlock
              by_cases hik : i = k
              · subst hik
                refine ⟨hiff.mpr hlock.1, ?_⟩
                intro j hjk
                rw [Function.update_noteq ?hne]
                · exact hlock.2 j hjk
                · exact hjk
              · constructor
                · rw [Function.update_noteq (by omega)]
                  exact hlock.1
                · intro j hjk
                  by_cases hij : j = i
                  · subst hij; rw [hiff]; exact hlock.2 j hik
                  · rw [Function.update_noteq hij]; exact hlock.2 j hjk
      | raiseErr m =>
          simp only [lockNext]
          have hiff : InCrit (Function.update c.tasks i
              (HAct.raiseErr m :: (c.tasks i).1, r) i) ↔ InCrit (c.tasks i) := by
            rw [Function.update_same]
            unfold InCrit
            simp [List.mem_cons]
          cases hl : c.lock with
          | none =>
              rw [hl] at hlock
              intro j
              by_cases hij : j = i
              · subst hij; rw [hiff]; exact hlock j
              · rw [Function.update_noteq hij]; exact hlock j
          | some k =>
              rw [hl] at hlock
              by_cases hik : i = k
              · subst hik
                refine ⟨hiff.mpr hlock.1, ?_⟩
                intro j hjk
                rw [Function.update_noteq hjk]
                exact hlock.2 j hjk
              · constructor
                · rw [Function.update_noteq (by omega)]
                  exact hlock.1
                · intro j hjk
                  by_cases hij : j = i
                  · subst hij; rw [hiff]; exact hlock.2 j hik
                  · rw [Function.update_noteq hij]; exact hlock.2 j hjk
      | act b =>
          simp only [lockNext]
          have hiff : InCrit (Function.update c.tasks i
              (HAct.act b :: (c.tasks i).1, r) i) ↔ InCrit (c.tasks i) := by
            rw [Function.update_same]
            unfold InCrit
            simp [List.mem_cons]
          cases hl : c.lock with
          | none =>
              rw [hl] at hlock
              intro j
              by_cases hij : j = i
              · subst hij; rw [hiff]; exact hlock j
              · rw [Function.update_noteq hij]; exact hlock j
          | some k =>
              rw [hl] at hlock
              by_cases hik : i = k
              · subst hik
                refine ⟨hiff.mpr hlock.1, ?_⟩
                intro j hjk
                rw [Function.update_noteq hjk]
                exact hlock.2 j hjk
              · constructor
                · rw [Function.update_noteq (by omega)]
                  exact hlock.1
                · intro j hjk
                  by_cases hij : j = i
                  · subst hij; rw [hiff]; exact hlock.2 j hik
                  · rw [Function.update_noteq hij]; exact hlock.2 j hjk

theorem MInv_reachable {c0 c : Cfg} (h0 : MInv c0)
    (h : Relation.ReflTransGen MStep c0 c) : MInv c := by
  induction h with
  | refl => exact h0
  | tail _ hstep ih => exact MInv_step ih hstep

theorem MInv_atMostOne {c : Cfg} (h : MInv c) {i j : Nat}
    (hi : InCrit (c.tasks i)) (hj : InCrit (c.tasks j)) : i = j := by
  obtain ⟨-, hlock⟩ := h
  cases hl : c.lock with
  | none =>
      rw [hl] at hlock
      exact absurd hi (hlock i)
  | some k =>
      rw [hl] at hlock
      have hik : i = k := by
        by_contra hne
        exact hlock.2 i hne hi
      have hjk : j = k := by
        by_contra hne
        exact hlock.2 j hne hj
      rw [hik, hjk]

/-! ### Claim theorems -/

/-- C3: the event-type normalizer satisfies the literal table, and every
type string matching neither accepted shape passes through lower-cased,
otherwise unchanged. -/
theorem normalize_event_type_table :
    normalizeEventType "AgentSessionEvent" (some "created") =
      "agent_session.created" ∧
    normalizeEventType "agentsessionevent.prompted" none =
      "agent_session.prompted" ∧
    normalizeEventType "AgentSessionEvent" (some "cancelled") =
      "agent_session.cancelled" ∧
    normalizeEventType "AgentSessionEvent" (some "canceled") =
      "agent_session.canceled" ∧
    ∀ (s : String) (a : Option String),
      ¬(s = "AgentSessionEvent" ∨ pyLower s = "agentsessionevent") →
      pyStartsWith (pyLower s) "agentsessionevent." = false →
      normalizeEventType s a = pyLower s := by
  refine ⟨by decide, by decide, by decide, by decide, ?_⟩
  intro s a hshape hpfx
  unfold normalizeEventType
  rw [if_neg hshape, hpfx]
  simp

theorem normalize_event_type_table_witness :
    ¬("IssueEvent" = "AgentSessionEvent" ∨
        pyLower "IssueEvent" = "agentsessionevent") ∧
    pyStartsWith (pyLower "IssueEvent") "agentsessionevent." = false ∧
    normalizeEventType "IssueEvent" (some "created") = pyLower "IssueEvent" :=
  ⟨by decide, by decide,
    normalize_event_type_table.2.2.2.2 "IssueEvent" (some "created")
      (by decide) (by decide)⟩

/-- C10: the fixed type name `AgentSessionEvent` (any letter case) with a
missing or non-string action normalizes to the empty string. -/
theorem normalize_event_type_empty_on_missing_action (s : String) (a : JVal)
    (hs : s = "AgentSessionEvent" ∨ pyLower s = "agentsessionevent")
    (ha : ∀ x : String, a ≠ JVal.str x) :
    normalizeEventTypeJ (JVal.str s) a = "" := by
  have hne : s.isEmpty = false := by
    rcases hs with h | h
    · subst h; decide
    · by_contra hcon
      rw [Bool.not_eq_false, String.isEmpty_iff] at hcon
      subst hcon
      exact absurd h (by decide)
  have haction : (match a with
      | JVal.str x => some x
      | _ => (none : Option String)) = none := by
    cases a with
    | str x => exact absurd rfl (ha x)
    | null => rfl
    | obj _ => rfl
    | other _ _ => rfl
  unfold normalizeEventTypeJ
  rw [haction]
  have htr : truthy (JVal.str s) = true := by simp [truthy, hne]
  rw [htr]
  simp only [if_true, pyStr]
  unfold normalizeEventType
  rw [if_pos hs]
  rfl

theorem normalize_event_type_empty_on_missing_action_witness :
    ("AGENTSESSIONEVENT" = "AgentSessionEvent" ∨
      pyLower "AGENTSESSIONEVENT" = "agentsessionevent") ∧
    normalizeEventTypeJ (JVal.str "AGENTSESSIONEVENT") JVal.null = "" :=
  ⟨by decide,
    normalize_event_type_empty_on_missing_action "AGENTSESSIONEVENT" JVal.null
      (by decide) (fun x h => by cases h)⟩

/-- C4: `unwrap` is idempotent on every payload whose wrapper nesting is
resolved within the iteration bound (the loop exits via its break); and on
every input without exception — self-re-wrapping payloads deeper than the
bound included — the merge loop performs at most 6 iterations. -/
theorem unwrap_idempotent_and_bounded :
    (∀ x : Dict, noWrapperDict (unwrapPayload x) = true →
       unwrapPayload (unwrapPayload x) = unwrapPayload x) ∧
    ∀ x : Dict, unwrapIters 6 x ≤ 6 :=
  ⟨fun _ h => unwrapLoop_eq_self_of_noWrapperDict 6 h,
   fun x => unwrapIters_le 6 x⟩

/-- The idempotence half applied to a two-level wrapper, and the iteration
cap applied to an 8-deep `payload` self-re-wrapping nest, which still has a
wrapper left when the loop gives up after its 6 allowed iterations. -/
theorem unwrap_idempotent_and_bounded_witness :
    noWrapperDict (unwrapPayload
      [("payload", JVal.obj [("data", JVal.obj [("a", JVal.str "v")])])]) =
      true ∧
    unwrapPayload (unwrapPayload
        [("payload", JVal.obj [("data", JVal.obj [("a", JVal.str "v")])])]) =
      unwrapPayload
        [("payload", JVal.obj [("data", JVal.obj [("a", JVal.str "v")])])] ∧
    unwrapIters 6
      [("payload", JVal.obj [("payload", JVal.obj [("payload", JVal.obj
        [("payload", JVal.obj [("payload", JVal.obj [("payload", JVal.obj
          [("payload", JVal.obj [("payload", JVal.obj
            [("a", JVal.str "v")])])])])])])])])] ≤ 6 ∧
    noWrapperDict (unwrapPayload
      [("payload", JVal.obj [("payload", JVal.obj [("payload", JVal.obj
        [("payload", JVal.obj [("payload", JVal.obj [("payload", JVal.obj
          [("payload", JVal.obj [("payload", JVal.obj
            [("a", JVal.str "v")])])])])])])])])]) = false :=
  ⟨by rfl,
    unwrap_idempotent_and_bounded.1
      [("payload", JVal.obj [("data", JVal.obj [("a", JVal.str "v")])])]
      (by rfl),
    unwrap_idempotent_and_bounded.2
      [("payload", JVal.obj [("payload", JVal.obj [("payload", JVal.obj
        [("payload", JVal.obj [("payload", JVal.obj [("payload", JVal.obj
          [("payload", JVal.obj [("payload", JVal.obj
            [("a", JVal.str "v")])])])])])])])])],
    by rfl⟩

theorem purge_forall_gt {cutoff : ℚ} :
    ∀ {evs : List ℚ}, List.Sorted (· ≤ ·) evs →
      ∀ t ∈ purge cutoff evs, cutoff < t := by
  intro evs
  induction evs with
  | nil => intro _ t ht; simp [purge] at ht
  | cons x xs ih =>
      intro hs t ht
      rw [List.sorted_cons] at hs
      unfold purge at ht
      by_cases hx : x ≤ cutoff
      · rw [if_pos hx] at ht
        exact ih hs.2 t ht
      · rw [if_neg hx] at ht
        push_neg at hx
        rcases List.mem_cons.mp ht with rfl | hmem
        · exact hx
        · exact lt_of_lt_of_le hx (hs.1 t hmem)

/-- C7: with capacity 2 and window 1, three back-to-back `acquire()` calls
behave so that the first two return without sleeping and the third
completes exactly when the first call's recorded timestamp leaves the
window; in general `acquire` purges every timestamp older than
`now - window`, returns immediately recording `now` when fewer than
`max_requests` remain, and otherwise sleeps exactly until the oldest
recorded timestamp leaves the window before recording. -/
theorem rate_limiter_acquire_spec :
    (acquire ⟨2, 1⟩ [] 0 = ([0], 0) ∧
     acquire ⟨2, 1⟩ [0] 0 = ([0, 0], 0) ∧
     acquire ⟨2, 1⟩ [0, 0] 0 = ([1], 1) ∧
     (0 : ℚ) + 1 ≤ (acquire ⟨2, 1⟩ [0, 0] 0).2) ∧
    ∀ (rl : RL) (evs : List ℚ) (now : ℚ),
      List.Sorted (· ≤ ·) evs →
      ((∀ t ∈ evs, t < now - rl.window → t ∉ purge (now - rl.window) evs) ∧
       ((purge (now - rl.window) evs).length < rl.maxRequests →
          acquire rl evs now = (purge (now - rl.window) evs ++ [now], now)) ∧
       (∀ oldest rest, purge (now - rl.window) evs = oldest :: rest →
          rl.maxRequests ≠ 0 →
          ¬ (oldest :: rest).length < rl.maxRequests →
          now < oldest + rl.window →
          acquire rl evs now =
            (purge oldest (oldest :: rest) ++ [oldest + rl.window],
             oldest + rl.window))) := by
  constructor
  · refine ⟨?_, ?_, ?_, ?_⟩
    · norm_num [acquire, purge]
    · norm_num [acquire, purge]
    · norm_num [acquire, purge]
    · norm_num [acquire, purge]
  · intro rl evs now hs
    refine ⟨?_, ?_, ?_⟩
    · intro t _ hlt hmem
      exact absurd (purge_forall_gt hs t hmem) (by linarith)
    · intro hlen
      unfold acquire
      have hm : rl.maxRequests ≠ 0 := by
        intro h0
        rw [h0] at hlen
        omega
      rw [if_neg hm, if_pos hlen]
    · intro oldest rest hpurge hm hlen hnow
      unfold acquire
      rw [if_neg hm]
      simp only [hpurge]
      rw [if_neg hlen]
      have hpos : 0 < oldest + rl.window - now := by linarith
      rw [if_pos hpos]
      have h1 : now + (oldest + rl.window - now) = oldest + rl.window := by ring
      rw [h1]
      have h2 : oldest + rl.window - rl.window = oldest := by ring
      rw [h2]

theorem rate_limiter_acquire_spec_witness :
    List.Sorted (· ≤ ·) ([0, 0] : List ℚ) ∧
    ((∀ t ∈ ([0, 0] : List ℚ), t < 0 - (1 : ℚ) → t ∉ purge (0 - 1) [0, 0]) ∧
     ((purge ((0 : ℚ) - 1) [0, 0]).length < 2 →
        acquire ⟨2, 1⟩ [0, 0] 0 = (purge ((0 : ℚ) - 1) [0, 0] ++ [0], 0)) ∧
     (∀ oldest rest, purge ((0 : ℚ) - 1) [0, 0] = oldest :: rest →
        (2 : Nat) ≠ 0 →
        ¬ (oldest :: rest).length < 2 →
        (0 : ℚ) < oldest + 1 →
        acquire ⟨2, 1⟩ [0, 0] 0 =
          (purge oldest (oldest :: rest) ++ [oldest + 1], oldest + 1))) :=
  ⟨by simp, rate_limiter_acquire_spec.2 ⟨2, 1⟩ [0, 0] 0 (by simp)⟩

/-- C9: two claim calls over the same pending set never hand out the same
row and only hand out pending rows.  The first and third conjuncts cover
the overlap mode (the second transaction runs while the first still holds
its row locks and, per `FOR UPDATE SKIP LOCKED`, skips them); the fourth
and fifth cover the serialized mode (the second claim runs on the table
after the first transaction committed). -/
theorem claim_exclusivity (src : String) (b1 b2 : Nat) (table : List Row) :
    (∀ r ∈ claimSelect src b2
        ((claimSelect src b1 [] table).map (fun x => x.id)) table,
       r ∉ claimSelect src b1 [] table) ∧
    (∀ r ∈ claimSelect src b1 [] table,
       r ∈ table ∧ r.status = RowStatus.pending ∧ r.source = src) ∧
    (∀ r ∈ claimSelect src b2
        ((claimSelect src b1 [] table).map (fun x => x.id)) table,
       r ∈ table ∧ r.status = RowStatus.pending ∧ r.source = src) ∧
    (∀ r ∈ claimSelect src b2 [] (claimStep src b1 [] table).2,
       r ∉ (claimStep src b1 [] table).1) ∧
    (∀ r ∈ claimSelect src b2 [] (claimStep src b1 [] table).2,
       r ∈ table ∧ r.status = RowStatus.pending ∧ r.source = src) := by
  have hpre : ∀ r ∈ claimSelect src b2 [] (claimStep src b1 [] table).2,
      r ∈ table ∧ r.status = RowStatus.pending ∧ r.source = src ∧
        r.id ∉ (claimSelect src b1 [] table).map (fun x => x.id) := by
    intro r hr
    obtain ⟨hmem, hsrc, hpend, -⟩ := mem_of_mem_claimSelect hr
    unfold claimStep at hmem
    simp only at hmem
    unfold claimApply at hmem
    obtain ⟨r0, hr0, heq⟩ := List.mem_map.mp hmem
    by_cases hid : r0.id ∈ (claimSelect src b1 [] table).map (fun x => x.id)
    · rw [if_pos hid] at heq
      rw [← heq] at hpend
      simp at hpend
    · rw [if_neg hid] at heq
      subst heq
      exact ⟨hr0, hpend, hsrc, hid⟩
  refine ⟨?_, ?_, ?_, ?_, ?_⟩
  · intro r hr hmem1
    obtain ⟨-, -, -, hnl⟩ := mem_of_mem_claimSelect hr
    exact hnl (List.mem_map.mpr ⟨r, hmem1, rfl⟩)
  · intro r hr
    obtain ⟨hm, hs, hp, -⟩ := mem_of_mem_claimSelect hr
    exact ⟨hm, hp, hs⟩
  · intro r hr
    obtain ⟨hm, hs, hp, -⟩ := mem_of_mem_claimSelect hr
    exact ⟨hm, hp, hs⟩
  · intro r hr hmem1
    obtain ⟨-, -, -, hnid⟩ := hpre r hr
    exact hnid (List.mem_map.mpr ⟨r, hmem1, rfl⟩)
  · intro r hr
    obtain ⟨hm, hp, hs, -⟩ := hpre r hr
    exact ⟨hm, hp, hs⟩

theorem claim_exclusivity_witness :
    (⟨1, "linear", RowStatus.pending, 0⟩ : Row) ∈
      claimSelect "linear" 1 []
        [⟨1, "linear", RowStatus.pending, 0⟩,
         ⟨2, "linear", RowStatus.pending, 1⟩] ∧
    (⟨1, "linear", RowStatus.pending, 0⟩ : Row) ∈
      [⟨1, "linear", RowStatus.pending, 0⟩,
       (⟨2, "linear", RowStatus.pending, 1⟩ : Row)] ∧
    (⟨1, "linear", RowStatus.pending, 0⟩ : Row).status = RowStatus.pending ∧
    (⟨1, "linear", RowStatus.pending, 0⟩ : Row).source = "linear" :=
  ⟨by decide,
    (claim_exclusivity "linear" 1 1
        [⟨1, "linear", RowStatus.pending, 0⟩,
         ⟨2, "linear", RowStatus.pending, 1⟩]).2.1
      ⟨1, "linear", RowStatus.pending, 0⟩ (by decide)⟩

theorem watchStop_batches_le (obs : List Obs) :
    (cancelBatches (watchStop obs)).length ≤ 1 := by
  induction obs with
  | nil => simp [watchStop, cancelBatches]
  | cons o rest ih =>
      unfold watchStop
      by_cases h1 : o.runDone = true
      · rw [if_pos h1]
        simp [cancelBatches]
      · rw [if_neg h1]
        by_cases h2 : o.stopRequested = true
        · rw [if_pos h2]
          by_cases h3 : o.tasks ≠ []
          · rw [if_pos h3]
            cases ht : o.tasks with
            | nil => exact absurd ht h3
            | cons a as => simp [cancelBatches, List.filterMap_cons]
          · rw [if_neg h3]
            simpa [cancelBatches, List.filterMap_cons] using ih
        · rw [if_neg h2]
          simpa [cancelBatches, List.filterMap_cons] using ih

theorem watchStop_count_le (obs : List Obs)
    (hnd : ∀ o ∈ obs, o.tasks.Nodup) (t : Nat) :
    cancelIssueCount (watchStop obs) t ≤ 1 := by
  induction obs with
  | nil => simp [watchStop, cancelIssueCount]
  | cons o rest ih =>
      have hndo : o.tasks.Nodup := hnd o (List.mem_cons_self _ _)
      have hndr : ∀ o' ∈ rest, o'.tasks.Nodup :=
        fun o' h => hnd o' (List.mem_cons_of_mem _ h)
      unfold watchStop
      by_cases h1 : o.runDone = true
      · rw [if_pos h1]
        simp [cancelIssueCount]
      · rw [if_neg h1]
        by_cases h2 : o.stopRequested = true
        · rw [if_pos h2]
          by_cases h3 : o.tasks ≠ []
          · rw [if_pos h3]
            have := List.nodup_iff_count_le_one.mp hndo t
            simpa [cancelIssueCount] using this
          · rw [if_neg h3]
            simpa [cancelIssueCount] using ih hndr
        · rw [if_neg h2]
          simpa [cancelIssueCount] using ih hndr

theorem watchStop_sleep_cadence (obs : List Obs) (d : ℚ)
    (h : WEv.sleep d ∈ watchStop obs) : d = 1 / 20 := by
  induction obs with
  | nil => simp [watchStop] at h
  | cons o rest ih =>
      unfold watchStop at h
      by_cases h1 : o.runDone = true
      · rw [if_pos h1] at h
        simp at h
      · rw [if_neg h1] at h
        by_cases h2 : o.stopRequested = true
        · rw [if_pos h2] at h
          by_cases h3 : o.tasks ≠ []
          · rw [if_pos h3] at h
            simp at h
          · rw [if_neg h3] at h
            rcases List.mem_cons.mp h with heq | h'
            · cases heq
            · rcases List.mem_cons.mp h' with heq | h''
              · exact (WEv.sleep.injEq _ _ ▸ heq)
              · exact ih h''
        · rw [if_neg h2] at h
          rcases List.mem_cons.mp h with heq | h'
          · exact (WEv.sleep.injEq _ _ ▸ heq)
          · exact ih h'

theorem watchStop_cancel_first (obs : List Obs) :
    ∀ ts, WEv.cancel ts ∈ watchStop obs → ts ≠ [] →
      ∃ (k : Nat) (o : Obs), obs[k]? = some o ∧ o.runDone = false ∧
        o.stopRequested = true ∧ ts = o.tasks ∧
        ∀ (j : Nat) (o' : Obs), j < k → obs[j]? = some o' →
          o'.runDone = false ∧ (o'.stopRequested = true → o'.tasks = []) := by
  induction obs with
  | nil => intro ts h; simp [watchStop] at h
  | cons o rest ih =>
      intro ts hmem hne
      unfold watchStop at hmem
      by_cases h1 : o.runDone = true
      · rw [if_pos h1] at hmem
        simp at hmem
      · rw [if_neg h1] at hmem
        by_cases h2 : o.stopRequested = true
        · rw [if_pos h2] at hmem
          by_cases h3 : o.tasks ≠ []
          · rw [if_pos h3] at hmem
            have heq := List.mem_singleton.mp hmem
            have hts : ts = o.tasks := by
              cases heq
              rfl
            refine ⟨0, o, List.getElem?_cons_zero, Bool.not_eq_true _ ▸ h1, h2,
              hts, ?_⟩
            intro j o' hj _
            omega
          · rw [if_neg h3] at hmem
            push_neg at h3
            rcases List.mem_cons.mp hmem with heq | hmem2
            · exfalso
              cases heq
              exact hne rfl
            · rcases List.mem_cons.mp hmem2 with heq | hmem3
              · cases heq
              · obtain ⟨k, ok, hk, hrd, hsr, hts, hprior⟩ := ih ts hmem3 hne
                refine ⟨k + 1, ok, by rw [List.getElem?_cons_succ]; exact hk,
                  hrd, hsr, hts, ?_⟩
                intro j oj hj hoj
                cases j with
                | zero =>
                    rw [List.getElem?_cons_zero] at hoj
                    cases hoj
                    exact ⟨Bool.not_eq_true _ ▸ h1, fun _ => h3⟩
                | succ j' =>
                    rw [List.getElem?_cons_succ] at hoj
                    exact hprior j' oj (by omega) hoj
        · rw [if_neg h2] at hmem
          rcases List.mem_cons.mp hmem with heq | hmem2
          · cases heq
          · obtain ⟨k, ok, hk, hrd, hsr, hts, hprior⟩ := ih ts hmem2 hne
            refine ⟨k + 1, ok, by rw [List.getElem?_cons_succ]; exact hk,
              hrd, hsr, hts, ?_⟩
            intro j oj hj hoj
            cases j with
            | zero =>
                rw [List.getElem?_cons_zero] at hoj
                cases hoj
                exact ⟨Bool.not_eq_true _ ▸ h1, fun hst => absurd hst h2⟩
            | succ j' =>
                rw [List.getElem?_cons_succ] at hoj
                exact hprior j' oj (by omega) hoj

/-- C8: over any observation stream, the stop-watcher issues at most one
non-empty cancellation batch; no handle receives a watcher cancellation
more than once; every pause is the fixed 50 ms cadence; and a non-empty
batch equals the running-task snapshot at the first observation where the
stop flag is set with tasks registered, before the run has finished. -/
theorem stop_watcher_spec (obs : List Obs)
    (hnd : ∀ o ∈ obs, o.tasks.Nodup) :
    (cancelBatches (watchStop obs)).length ≤ 1 ∧
    (∀ t : Nat, cancelIssueCount (watchStop obs) t ≤ 1) ∧
    (∀ d : ℚ, WEv.sleep d ∈ watchStop obs → d = 1 / 20) ∧
    (∀ ts, WEv.cancel ts ∈ watchStop obs → ts ≠ [] →
       ∃ (k : Nat) (o : Obs), obs[k]? = some o ∧ o.runDone = false ∧
         o.stopRequested = true ∧ ts = o.tasks ∧
         ∀ (j : Nat) (o' : Obs), j < k → obs[j]? = some o' →
           o'.runDone = false ∧ (o'.stopRequested = true → o'.tasks = [])) :=
  ⟨watchStop_batches_le obs,
   fun t => watchStop_count_le obs hnd t,
   fun d h => watchStop_sleep_cadence obs d h,
   fun ts h hne => watchStop_cancel_first obs ts h hne⟩

theorem stop_watcher_spec_witness :
    (∀ o ∈ [Obs.mk false false [], Obs.mk false true [7, 9]],
       o.tasks.Nodup) ∧
    ((cancelBatches (watchStop
        [Obs.mk false false [], Obs.mk false true [7, 9]])).length ≤ 1 ∧
     cancelIssueCount (watchStop
        [Obs.mk false false [], Obs.mk false true [7, 9]]) 7 ≤ 1 ∧
     WEv.cancel [7, 9] ∈ watchStop
        [Obs.mk false false [], Obs.mk false true [7, 9]]) := by
  have hnd : ∀ o ∈ [Obs.mk false false [], Obs.mk false true [7, 9]],
      o.tasks.Nodup := by decide
  have hspec := stop_watcher_spec
    [Obs.mk false false [], Obs.mk false true [7, 9]] hnd
  exact ⟨hnd, hspec.1, hspec.2.1 7, by decide⟩

theorem isRunEvent_handled {n : String} (h : isRunEvent n) :
    isHandled n = true := by
  rcases h with rfl | rfl <;> decide

theorem isRunEvent_not_stop {n : String} (h : isRunEvent n) :
    n ∉ stopEventNames := by
  rcases h with rfl | rfl <;> decide

theorem handleEvent_run_eq (env : HEnv) (st : SessState)
    (h : isRunEvent (classifyEvent env)) {sid : String}
    (hsid : extractSessionId (unwrapPayload env.payload) = some sid) :
    handleEvent env st =
      (finishTrace
        (lockBody env { st with stopRequested := false } sid
          (classifyEvent env) (unwrapPayload env.payload)).1
        (lockBody env { st with stopRequested := false } sid
          (classifyEvent env) (unwrapPayload env.payload)).2.2,
       (lockBody env { st with stopRequested := false } sid
          (classifyEvent env) (unwrapPayload env.payload)).2.1,
       match (lockBody env { st with stopRequested := false } sid
          (classifyEvent env) (unwrapPayload env.payload)).2.2 with
       | none => Outcome.done
       | some _ => Outcome.failed) := by
  simp only [handleEvent]
  rw [isRunEvent_handled h, hsid]
  simp only [if_neg (by decide : ¬(true = false)),
    if_neg (isRunEvent_not_stop h)]

theorem handleEvent_stop_eq (env : HEnv) (st : SessState)
    (h : classifyEvent env ∈ stopEventNames) {sid : String}
    (hsid : extractSessionId (unwrapPayload env.payload) = some sid) :
    handleEvent env st = stopBranch env st sid := by
  have h1 : isHandled (classifyEvent env) = true := by
    unfold isHandled
    exact decide_eq_true (Or.inr (Or.inr h))
  simp only [handleEvent]
  rw [h1, hsid]
  simp only [if_neg (by decide : ¬(true = false)), if_pos h]

/-- C1: for every Created/Prompted event handled for a session, the handler
trace acquires the run lock first (no action precedes it), resets
`stop_requested` exactly once, immediately after the acquire and nowhere
else, and releases the lock on every exit path (the only action that may
follow the release is the re-raised exception); and over every interleaving
of such handler tasks against one session's lock, at most one task is
inside its critical section at any instant. -/
theorem run_lock_discipline :
    (∀ (env : HEnv) (st : SessState) (sid : String),
       isRunEvent (classifyEvent env) →
       extractSessionId (unwrapPayload env.payload) = some sid →
       TraceShape (handleEvent env st).1 ∧
       ((handleEvent env st).1).count HAct.resetStop = 1 ∧
       ((handleEvent env st).1).count HAct.acquire = 1) ∧
    (∀ (envs : Nat → HEnv) (sts : Nat → SessState) (sids : Nat → String),
       (∀ i, isRunEvent (classifyEvent (envs i)) ∧
         extractSessionId (unwrapPayload (envs i).payload) = some (sids i)) →
       ∀ c : Cfg,
         Relation.ReflTransGen MStep
           ⟨none, fun i => ([], (handleEvent (envs i) (sts i)).1)⟩ c →
         ∀ i j, InCrit (c.tasks i) → InCrit (c.tasks j) → i = j) := by
  have hshape : ∀ (env : HEnv) (st : SessState) (sid : String),
      isRunEvent (classifyEvent env) →
      extractSessionId (unwrapPayload env.payload) = some sid →
      TraceShape (handleEvent env st).1 := by
    intro env st sid h hsid
    rw [handleEvent_run_eq env st h hsid]
    exact finishTrace_traceShape _ _
  constructor
  · intro env st sid h hsid
    have hs := hshape env st sid h hsid
    exact ⟨hs, traceShape_count_resetStop hs, traceShape_count_acquire hs⟩
  · intro envs sts sids hall c hreach i j hi hj
    have h0 : MInv ⟨none, fun i => ([], (handleEvent (envs i) (sts i)).1)⟩ := by
      refine ⟨?_, ?_⟩
      · intro k
        exact hshape (envs k) (sts k) (sids k) (hall k).1 (hall k).2
      · intro k hc
        exact absurd hc.1 (List.not_mem_nil _)
    exact MInv_atMostOne (MInv_reachable h0 hreach) hi hj

theorem stepC1 : MStep cfgC1 cfgC1' :=
  MStep.exec cfgC1 0 HAct.acquire trC1.tail (by rfl) (by rfl)

theorem run_lock_discipline_witness :
    (TraceShape trC1 ∧ trC1.count HAct.resetStop = 1 ∧
      trC1.count HAct.acquire = 1) ∧ (0 : Nat) = 0 := by
  constructor
  · exact run_lock_discipline.1 envC1 stInit "sess-1" (Or.inl (by rfl)) (by rfl)
  · refine run_lock_discipline.2 (fun _ => envC1) (fun _ => stInit)
      (fun _ => "sess-1") (fun i => ⟨Or.inl (by rfl), by rfl⟩) cfgC1'
      (Relation.ReflTransGen.single stepC1) 0 0 ?_ ?_
    · constructor
      · show HAct.acquire ∈ (cfgC1'.tasks 0).1
        simp [cfgC1', cfgC1, Function.update_same]
      · show HAct.release ∉ (cfgC1'.tasks 0).1
        simp [cfgC1', cfgC1, Function.update_same]
    · constructor
      · show HAct.acquire ∈ (cfgC1'.tasks 0).1
        simp [cfgC1', cfgC1, Function.update_same]
      · show HAct.release ∉ (cfgC1'.tasks 0).1
        simp [cfgC1', cfgC1, Function.update_same]

/-- C2: a Stop event for a session with no registered running task and a
free run lock sends no message and only sets `stop_requested`; with at
least one registered running task it sets every handle's cancellation flag
and sends exactly one acknowledgement to the session channel. -/
theorem stop_event_semantics :
    ∀ (env : HEnv) (st : SessState) (sid : String),
      classifyEvent env ∈ stopEventNames →
      extractSessionId (unwrapPayload env.payload) = some sid →
      ((st.runningTasks = [] → st.lockHeld = false →
         (handleEvent env st).1.filter isSendAct = [] ∧
         (handleEvent env st).2.1 = { st with stopRequested := true }) ∧
       (st.runningTasks ≠ [] →
         (handleEvent env st).2.1.runningTasks =
           st.runningTasks.map (fun p => (p.1, true)) ∧
         (∀ p ∈ (handleEvent env st).2.1.runningTasks, p.2 = true) ∧
         (handleEvent env st).1.filter isSendAct =
           [HAct.act (BAct.send sid stopText true)])) := by
  intro env st sid h hsid
  rw [handleEvent_stop_eq env st h hsid]
  simp only [stopBranch]
  constructor
  · intro h1 h2
    have hcond : ¬(st.runningTasks.length ≠ 0 ∨ st.lockHeld = true) := by
      rw [h1, h2]
      simp
    rw [if_neg hcond]
    constructor
    · simp [isSendAct]
    · rw [h1]
      rfl
  · intro h1
    have hcond : st.runningTasks.length ≠ 0 ∨ st.lockHeld = true :=
      Or.inl (fun hlen => h1 (List.length_eq_zero.mp hlen))
    rw [if_pos hcond]
    refine ⟨rfl, ?_, ?_⟩
    · intro p hp
      obtain ⟨q, -, hq⟩ := List.mem_map.mp hp
      rw [← hq]
    · simp [isSendAct]

theorem stop_event_semantics_witness :
    (handleEvent envC2 stC2).2.1.runningTasks =
      stC2.runningTasks.map (fun p => (p.1, true)) ∧
    (∀ p ∈ (handleEvent envC2 stC2).2.1.runningTasks, p.2 = true) ∧
    (handleEvent envC2 stC2).1.filter isSendAct =
      [HAct.act (BAct.send "sess-2" stopText true)] :=
  ((stop_event_semantics envC2 stC2 "sess-2" (by decide) (by rfl)).2
    (by decide))

/-- C5: a Prompted event with no locally resolvable prompt body but a
resolvable activity id fetches that activity from the client by that id and
hands the fetched body verbatim to the engine run.  The fetch of
`LinearClient.get_agent_activity` itself is the oracle
`fetchActivityResp`; `extractActivityBody` applied to its response is the
body extraction performed by `_maybe_fetch_prompt_from_linear`. -/
theorem prompted_remote_fetch :
    ∀ (env : HEnv) (st : SessState) (sid aid body : String) (activity : JVal),
      classifyEvent env = "agent_session.prompted" →
      extractSessionId (unwrapPayload env.payload) = some sid →
      extractPromptBody env.jload (unwrapPayload env.payload) = none →
      extractAgentActivityId (unwrapPayload env.payload) = some aid →
      env.fetchActivityResp aid = some activity →
      extractActivityBody env.jload activity = some body →
      env.ackSendRaises = false →
      env.stopObservedBeforeRun = false →
      HAct.act (BAct.fetchActivity aid) ∈ (handleEvent env st).1 ∧
      HAct.act (BAct.runEngine body) ∈ (handleEvent env st).1 := by
  intro env st sid aid body activity hcls hsid hlocal haid hfetch hbody hack hstop
  rw [handleEvent_run_eq env st (Or.inr hcls) hsid, hcls]
  cases hrr : env.runRaises with
  | none =>
      simp only [lockBody, promptResolutionActs, maybeFetchPromptFromLinear,
        if_neg (by decide : ¬("agent_session.prompted" = "agent_session.created")),
        hlocal, haid, hfetch, hbody, hack, hstop, hrr]
      simp [finishTrace]
  | some m =>
      simp only [lockBody, promptResolutionActs, maybeFetchPromptFromLinear,
        if_neg (by decide : ¬("agent_session.prompted" = "agent_session.created")),
        hlocal, haid, hfetch, hbody, hack, hstop, hrr]
      simp [finishTrace]

theorem prompted_remote_fetch_witness :
    HAct.act (BAct.fetchActivity "act-1") ∈ (handleEvent envC5 stInit).1 ∧
    HAct.act (BAct.runEngine "fetched prompt") ∈ (handleEvent envC5 stInit).1 :=
  prompted_remote_fetch envC5 stInit "sess-1" "act-1" "fetched prompt"
    (JVal.obj [("id", JVal.str "act-1"),
      ("content", JVal.obj [("body", JVal.str "fetched prompt")])])
    (by rfl) (by rfl) (by rfl) (by rfl) (by rfl) (by rfl) rfl rfl

/-- C6 counterexample: the claim "every Created or Prompted event that
reaches the engine run posts a plan update on completion, whatever the
outcome" is false on the code: a Prompted run posts no plan update at all;
a Created run that raises, or one with `stop_requested` set after the run,
posts no completion update either. -/
theorem plan_update_counterexample :
    (HAct.act (BAct.runEngine "hi") ∈ (handleEvent envC6a stInit).1 ∧
     HAct.act BAct.setPlanFinal ∉ (handleEvent envC6a stInit).1 ∧
     HAct.act BAct.setPlanStart ∉ (handleEvent envC6a stInit).1) ∧
    (HAct.act (BAct.runEngine "Fix bug") ∈ (handleEvent envC6b stInit).1 ∧
     HAct.act BAct.setPlanFinal ∉ (handleEvent envC6b stInit).1 ∧
     (handleEvent envC6b stInit).2.2 = Outcome.failed) ∧
    (HAct.act (BAct.runEngine "Fix bug") ∈ (handleEvent envC6c stInit).1 ∧
     HAct.act BAct.setPlanFinal ∉ (handleEvent envC6c stInit).1) := by
  decide

/-- C6 amended: only a Created event whose engine run returns without
raising, and whose session has no stop requested afterwards, posts the
completion plan update through the rate-limited client, immediately after
the run and still inside the lock; the event is then marked done whatever
the plan call does (`env` is arbitrary, in particular
`planFinalRaises = true`: both plan calls sit in catch-all handlers, so a
plan failure is logged and swallowed and never changes the outcome). -/
theorem plan_update_amended :
    ∀ (env : HEnv) (st : SessState) (sid : String) (ra : List BAct)
      (pid : Option String) (p : String),
      classifyEvent env = "agent_session.created" →
      extractSessionId (unwrapPayload env.payload) = some sid →
      promptResolutionActs env "agent_session.created"
        (unwrapPayload env.payload) = (ra, pid, some p) →
      env.ackSendRaises = false →
      env.stopObservedBeforeRun = false →
      env.runRaises = none →
      env.stopObservedAfterRun = false →
      (handleEvent env st).1 =
        (HAct.acquire :: HAct.resetStop ::
          (([BAct.setPlanStart] ++ ra ++ [BAct.send sid ackText true]).map
            HAct.act)) ++
        [HAct.act (BAct.runEngine p), HAct.act BAct.setPlanFinal,
         HAct.release] ∧
      (handleEvent env st).2.2 = Outcome.done := by
  intro env st sid ra pid p hcls hsid hres hack hstop hrun hstop2
  rw [handleEvent_run_eq env st (Or.inl hcls) hsid, hcls]
  simp only [lockBody, hres, hack, hstop, hrun, hstop2]
  simp [finishTrace, excTail, List.map_append]

theorem plan_update_amended_witness :
    (handleEvent envC6w stInit).1 =
      (HAct.acquire :: HAct.resetStop ::
        (([BAct.setPlanStart] ++ [] ++ [BAct.send "sess-1" ackText true]).map
          HAct.act)) ++
      [HAct.act (BAct.runEngine "Fix bug"), HAct.act BAct.setPlanFinal,
       HAct.release] ∧
    (handleEvent envC6w stInit).2.2 = Outcome.done :=
  plan_update_amended envC6w stInit "sess-1" [] (some "proj-1") "Fix bug"
    (by rfl) (by rfl) (by rfl) rfl rfl rfl rfl
